import Mathlib

/-!
Verification development for the PostgreSQL backup orchestration engine
(pg_backup_main.py).  The Python source is shallowly embedded: the retry
ledger (a JSON dict persisted to .failed_uploads.json) becomes an
association list with unique keys, the upload coordinator and the retry
pass become pure functions parameterised by the outcome of every external
call (Azure requests, filesystem probes), and the orchestration procedure
becomes a function from such an environment to the list of executed steps
together with the accumulated error/warning state and the final ledger.
-/

namespace PgBackup

/-- Constants from the top of pg_backup_main.py. -/
def RETENTION_DAYS : Nat := 365

/-- LOCAL_RETENTION_DAYS = 7 in the source. -/
def LOCAL_RETENTION_DAYS : Nat := 7

/-- MAX_UPLOAD_RETRIES = 3 in the source. -/
def MAX_UPLOAD_RETRIES : Nat := 3

/-- MIN_DISK_SPACE_MB = 1024 in the source; kept rational because the
source compares a float quotient against it. -/
def MIN_DISK_SPACE_MB : ℚ := 1024

/-- One value of the persisted failed-uploads dict: keys file,
first_failure, retry_count, last_attempt.  Timestamps are abstract Nat
ticks. -/
structure LedgerEntry where
  file : String
  first_failure : Nat
  retry_count : Nat
  last_attempt : Nat
deriving DecidableEq, Repr

/-- The failed-uploads dict, in insertion order (Python dicts preserve
insertion order); keys are unique in every reachable state. -/
abbrev Ledger := List (String × LedgerEntry)

/-- Dict lookup (first matching key). -/
def lookupL (k : String) : Ledger → Option LedgerEntry
  | [] => none
  | p :: t => if p.1 = k then some p.2 else lookupL k t

/-- In-place dict value update (position preserved, as in Python). -/
def ledgerUpdate (k : String) (v : LedgerEntry) (l : Ledger) : Ledger :=
  l.map fun p => if p.1 = k then (k, v) else p

/-- Dict key deletion. -/
def ledgerErase (k : String) (l : Ledger) : Ledger :=
  l.filter fun p => p.1 != k

/-- _mark_upload_failed: create the entry with retry_count 0 on the first
failure of a path, otherwise increment retry_count and refresh
last_attempt.  (_save_failed_uploads persists after every mutation; the
store is the ledger value itself here.) -/
def markUploadFailed (now : Nat) (file : String) (l : Ledger) : Ledger :=
  match lookupL file l with
  | none => l ++ [(file, ⟨file, now, 0, now⟩)]
  | some e => ledgerUpdate file ⟨e.file, e.first_failure, e.retry_count + 1, now⟩ l

/-- _mark_upload_success: drop the entry for the path, if any. -/
def markUploadSuccess (file : String) (l : Ledger) : Ledger :=
  ledgerErase file l

/-- _should_retry_upload: no entry, or retry_count at the maximum, means
no retry; a missing file removes the entry and means no retry; otherwise
retry.  Returns the possibly mutated ledger as well. -/
def shouldRetryUpload (fileExists : Bool) (file : String) (l : Ledger) :
    Bool × Ledger :=
  match lookupL file l with
  | none => (false, l)
  | some e =>
    if MAX_UPLOAD_RETRIES ≤ e.retry_count then (false, l)
    else if fileExists then (true, l)
    else (false, ledgerErase file l)

/-- Error and warning accumulators of one run (self.errors,
self.warnings). -/
structure RunState where
  errors : List String
  warnings : List String
deriving DecidableEq, Repr

def addErr (st : RunState) (m : String) : RunState :=
  ⟨st.errors ++ [m], st.warnings⟩

def addWarn (st : RunState) (m : String) : RunState :=
  ⟨st.errors, st.warnings ++ [m]⟩

def addWarns (st : RunState) (ms : List String) : RunState :=
  ⟨st.errors, st.warnings ++ ms⟩

def msgNoCreds : String := "Azure credentials not configured"

def msgKeyValidation : String := "Azure account key validation failed"

def msgClientFail : String := "Azure client creation failed"

def msgUploadErrAzure : String := "Azure upload error"

def msgUploadErrGeneric : String := "Error uploading to Azure"

/-- The possible outcomes of one upload_to_azure call, one constructor per
distinct failure branch of the source. -/
inductive UploadOutcome where
  | success
  | noCreds
  | badKey
  | clientFail
  | azureErr
  | genericErr
deriving DecidableEq, Repr

/-- upload_to_azure(backup_file, is_retry): on success the ledger entry is
removed; on every failure branch an entry is inserted or incremented only
when is_retry is false (each call of _mark_upload_failed in the source is
guarded by if not is_retry).  The error list is appended on the first
three failure branches unconditionally and on the last two only when
is_retry is false, exactly as in the source. -/
def uploadToAzure (now : Nat) (out : UploadOutcome) (file : String)
    (isRetry : Bool) (st : RunState) (l : Ledger) :
    Bool × RunState × Ledger :=
  match out with
  | .success => (true, st, markUploadSuccess file l)
  | .noCreds =>
      (false, addErr st msgNoCreds,
        if isRetry then l else markUploadFailed now file l)
  | .badKey =>
      (false, addErr st msgKeyValidation,
        if isRetry then l else markUploadFailed now file l)
  | .clientFail =>
      (false, addErr st msgClientFail,
        if isRetry then l else markUploadFailed now file l)
  | .azureErr =>
      (false, if isRetry then st else addErr st msgUploadErrAzure,
        if isRetry then l else markUploadFailed now file l)
  | .genericErr =>
      (false, if isRetry then st else addErr st msgUploadErrGeneric,
        if isRetry then l else markUploadFailed now file l)

/-- Loop body of retry_failed_uploads over the snapshot of ledger keys:
skip when _should_retry_upload says no, drop the entry when the file has
disappeared, otherwise upload with is_retry true and count the result. -/
def retryGo (now : Nat) (fx : String → Bool) (out : String → UploadOutcome) :
    List String → RunState → Ledger → Nat → Nat →
    Nat × Nat × RunState × Ledger
  | [], st, l, s, f => (s, f, st, l)
  | k :: ks, st, l, s, f =>
    match shouldRetryUpload (fx k) k l with
    | (false, l1) => retryGo now fx out ks st l1 s f
    | (true, l1) =>
      if fx k then
        match uploadToAzure now (out k) k true st l1 with
        | (true, st2, l2) => retryGo now fx out ks st2 l2 (s + 1) f
        | (false, st2, l2) => retryGo now fx out ks st2 l2 s (f + 1)
      else retryGo now fx out ks st (ledgerErase k l1) s f

/-- retry_failed_uploads: iterate over a snapshot of the current keys
(list(self.failed_uploads.keys())), returning (successful_retries,
failed_retries, run state, ledger). -/
def retryFailedUploads (now : Nat) (fx : String → Bool)
    (out : String → UploadOutcome) (st : RunState) (l : Ledger) :
    Nat × Nat × RunState × Ledger :=
  retryGo now fx out (l.map Prod.fst) st l 0 0

/-! Basic dictionary lemmas. -/

theorem lookupL_append (k : String) (l₁ l₂ : Ledger) :
    lookupL k (l₁ ++ l₂) =
      match lookupL k l₁ with
      | some v => some v
      | none => lookupL k l₂ := by
  induction l₁ with
  | nil => simp [lookupL]
  | cons p t ih =>
    by_cases h : p.1 = k <;> simp [lookupL, h, ih]

theorem lookupL_update_self (k : String) (v : LedgerEntry) (l : Ledger) :
    lookupL k (ledgerUpdate k v l) = (lookupL k l).map fun _ => v := by
  induction l with
  | nil => simp [lookupL, ledgerUpdate]
  | cons p t ih =>
    by_cases h : p.1 = k
    · simp [lookupL, ledgerUpdate, h]
    · simp only [ledgerUpdate, List.map_cons, if_neg h, lookupL, h, if_false]
      exact ih

theorem lookupL_update_ne (j k : String) (v : LedgerEntry) (l : Ledger)
    (h : j ≠ k) : lookupL j (ledgerUpdate k v l) = lookupL j l := by
  induction l with
  | nil => simp [lookupL, ledgerUpdate]
  | cons p t ih =>
    by_cases hp : p.1 = k
    · have hkj : ¬(k = j) := fun hkj => h hkj.symm
      have hpj : ¬(p.1 = j) := by rw [hp]; exact hkj
      simp only [ledgerUpdate, List.map_cons, if_pos hp, lookupL,
        if_neg hkj, if_neg hpj]
      exact ih
    · by_cases hj : p.1 = j
      · simp only [ledgerUpdate, List.map_cons, if_neg hp, lookupL,
          if_pos hj]
      · simp only [ledgerUpdate, List.map_cons, if_neg hp, lookupL,
          if_neg hj]
        exact ih

theorem lookupL_erase_self (k : String) (l : Ledger) :
    lookupL k (ledgerErase k l) = none := by
  induction l with
  | nil => simp [lookupL, ledgerErase]
  | cons p t ih =>
    by_cases h : p.1 = k
    · simpa [ledgerErase, List.filter_cons, h] using ih
    · simp only [ledgerErase, List.filter_cons, bne_iff_ne, ne_eq, h,
        not_false_iff, if_true, lookupL, if_neg h]
      exact ih

theorem lookupL_erase_ne (j k : String) (l : Ledger) (h : j ≠ k) :
    lookupL j (ledgerErase k l) = lookupL j l := by
  induction l with
  | nil => simp [lookupL, ledgerErase]
  | cons p t ih =>
    by_cases hp : p.1 = k
    · have hpj : ¬(p.1 = j) := by rw [hp]; exact fun hkj => h hkj.symm
      have hbne : (p.1 != k) = false := by simp [bne_iff_ne, hp]
      simp only [ledgerErase, List.filter_cons, hbne, if_false,
        Bool.false_eq_true, lookupL, if_neg hpj]
      simpa [ledgerErase] using ih
    · have hbne : (p.1 != k) = true := by simp [bne_iff_ne, hp]
      by_cases hj : p.1 = j
      · simp only [ledgerErase, List.filter_cons, hbne, if_true, lookupL,
          if_pos hj]
      · simp only [ledgerErase, List.filter_cons, hbne, if_true, lookupL,
          if_neg hj]
        exact ih

theorem lookupL_erase (k : String) (l : Ledger) (p : String) :
    lookupL p (ledgerErase k l) = if p = k then none else lookupL p l := by
  by_cases h : p = k
  · simp [h, lookupL_erase_self]
  · simp [h, lookupL_erase_ne _ _ _ h]

theorem lookupL_markFailed_self (now : Nat) (f : String) (l : Ledger) :
    lookupL f (markUploadFailed now f l) =
      some (match lookupL f l with
            | none => ⟨f, now, 0, now⟩
            | some e => ⟨e.file, e.first_failure, e.retry_count + 1, now⟩) := by
  unfold markUploadFailed
  cases h : lookupL f l with
  | none => simp [lookupL_append, h, lookupL]
  | some e => simp [lookupL_update_self, h]

theorem lookupL_markFailed_ne (now : Nat) (f g : String) (l : Ledger)
    (h : g ≠ f) : lookupL g (markUploadFailed now f l) = lookupL g l := by
  unfold markUploadFailed
  cases hf : lookupL f l with
  | none =>
    have hfg : ¬(f = g) := fun hfg => h hfg.symm
    simp only [lookupL_append, lookupL, if_neg hfg]
    cases lookupL g l <;> rfl
  | some e => simp [lookupL_update_ne _ _ _ _ h]

/-! ExecutionGuard: _acquire_lock.  The source classifies the exception of
the primary open/flock attempt: a permission condition (PermissionError,
or an error text containing Permission denied) triggers one retry against
the fallback path /tmp/pgbackup.lock, any other IOError/OSError is treated
as lock contention and fails immediately.  self.actual_lock_file starts at
the primary path and is reassigned only when the fallback succeeds. -/

inductive PrimaryLockResult where
  | ok
  | permissionDenied
  | contention
deriving DecidableEq, Repr

inductive FallbackLockResult where
  | ok
  | err
deriving DecidableEq, Repr

def LOCK_FILE : String := "/var/backups/pgbackup/pgbackup.lock"

def FALLBACK_LOCK_FILE : String := "/tmp/pgbackup.lock"

def msgAlreadyRunning : String :=
  "Backup already in progress - another instance is running"

def msgCannotLock : String := "Cannot acquire lock - check permissions"

/-- Result of _acquire_lock: return value, self.actual_lock_file, whether
the fallback path was attempted, and the errors appended. -/
structure AcquireResult where
  ok : Bool
  usedPath : String
  fallbackTried : Bool
  errs : List String
deriving DecidableEq, Repr

/-- _acquire_lock as a function of the outcomes of the two lock attempts. -/
def acquireLockR : PrimaryLockResult → FallbackLockResult → AcquireResult
  | .ok, _ => ⟨true, LOCK_FILE, false, []⟩
  | .contention, _ => ⟨false, LOCK_FILE, false, [msgAlreadyRunning]⟩
  | .permissionDenied, .ok => ⟨true, FALLBACK_LOCK_FILE, true, []⟩
  | .permissionDenied, .err => ⟨false, LOCK_FILE, true, [msgCannotLock]⟩

/-! CapacityGate: _check_disk_space.  The probe argument is the result of
shutil.disk_usage: none when the call raises, otherwise the free space in
MB (the source divides the byte count by 1024*1024; the division by a
power of two is exact, so a rational models the float faithfully). -/

def msgInsufficientSpace : String := "Insufficient disk space"

/-- _check_disk_space(required_mb, warn_only). -/
def checkDiskSpace (probe : Option ℚ) (requiredMB : ℚ) (warnOnly : Bool)
    (st : RunState) : Bool × RunState :=
  match probe with
  | none => (true, st)
  | some freeMB =>
    if freeMB < requiredMB then
      if warnOnly then (true, addWarn st msgInsufficientSpace)
      else (false, addErr st msgInsufficientSpace)
    else (true, st)

/-! Claims C1, C2, C4, C8, C9. -/

/-- Claim C1 (evidence of the code bug): an upload failure creates the
ledger entry with retry_count 0, and the failures of the retry attempts of
the next two runs never increment it, because every _mark_upload_failed
call in upload_to_azure is guarded by if not is_retry and
retry_failed_uploads does no bookkeeping of its own on failure.  After the
three failed runs the retry_count is still 0 (the claim and the spec say
it reaches the maximum 3), and the retry pass of the fourth run attempts a
fourth upload (failed_retries = 1) instead of removing the entry and
deleting the artifact. -/
def c1File : String := "analytics_20240101_120000_000001.sql.gz"

def c1Exists : String → Bool := fun _ => true

def c1Out : String → UploadOutcome := fun _ => UploadOutcome.azureErr

/-- Ledger after the first run, in which the fresh upload of the artifact
fails. -/
def c1Ledger1 : Ledger :=
  (uploadToAzure 1 UploadOutcome.azureErr c1File false ⟨[], []⟩ []).2.2

/-- Ledger after the second run's retry pass, whose retry upload fails. -/
def c1Ledger2 : Ledger :=
  (retryFailedUploads 2 c1Exists c1Out ⟨[], []⟩ c1Ledger1).2.2.2

/-- Ledger after the third run's retry pass, whose retry upload fails. -/
def c1Ledger3 : Ledger :=
  (retryFailedUploads 3 c1Exists c1Out ⟨[], []⟩ c1Ledger2).2.2.2

/-- The fourth run's retry pass. -/
def c1Run4 : Nat × Nat × RunState × Ledger :=
  retryFailedUploads 4 c1Exists c1Out ⟨[], []⟩ c1Ledger3

theorem c1_retry_never_increments :
    ((lookupL c1File c1Ledger3).map fun e => e.retry_count) = some 0
    ∧ c1Run4.2.1 = 1
    ∧ ((lookupL c1File c1Run4.2.2.2).map fun e => e.retry_count)
        = some 0 := by
  decide

/-- Claim C2, counterexample: when an entry for the path already exists
with retry_count 0, a failed non-retry upload leaves retry_count 1, not
the prior count 0 that the claim states. -/
theorem c2_counterexample_retry_count :
    let f := "app_db_20240101_120000_000001.sql.gz"
    let l0 : Ledger := [(f, ⟨f, 0, 0, 0⟩)]
    let l1 := (uploadToAzure 5 UploadOutcome.azureErr f false ⟨[], []⟩ l0).2.2
    ((lookupL f l1).map fun e => e.retry_count) = some 1
    ∧ ¬ ((lookupL f l1).map fun e => e.retry_count) = some 0 := by
  decide

/-- Claim C2 as amended: after a failed upload with is_retry false a
ledger entry for the path is present, with retry_count equal to the prior
count plus one when an entry already existed and 0 when it is new; after a
successful upload no entry for the path exists.  (The original claim said
retry_count equals the prior count; the code increments it.) -/
theorem c2_ledger_after_upload (now : Nat) (out : UploadOutcome)
    (f : String) (st : RunState) (l : Ledger) :
    lookupL f (uploadToAzure now out f false st l).2.2
      = (if out = UploadOutcome.success then none
         else some (match lookupL f l with
                    | none => ⟨f, now, 0, now⟩
                    | some e =>
                      ⟨e.file, e.first_failure, e.retry_count + 1, now⟩)) := by
  cases out <;>
    simp [uploadToAzure, markUploadSuccess, lookupL_erase_self,
      lookupL_markFailed_self]

/-- Claim C4: contention on the primary lock path fails the acquisition
without touching the fallback; a permission condition retries against the
fallback path, and on success the fallback path is recorded as the path
actually used; a clean primary acquisition records the primary path. -/
theorem c4_lock_contention_vs_permission (fb : FallbackLockResult) :
    (acquireLockR PrimaryLockResult.contention fb).ok = false
    ∧ (acquireLockR PrimaryLockResult.contention fb).fallbackTried = false
    ∧ (acquireLockR PrimaryLockResult.permissionDenied fb).fallbackTried = true
    ∧ acquireLockR PrimaryLockResult.permissionDenied FallbackLockResult.ok
        = ⟨true, FALLBACK_LOCK_FILE, true, []⟩
    ∧ acquireLockR PrimaryLockResult.ok fb = ⟨true, LOCK_FILE, false, []⟩ := by
  cases fb <;> exact ⟨rfl, rfl, rfl, rfl, rfl⟩

/-- Claim C8: with the probe succeeding, a free-space value below the
threshold makes the warn-only gate append one warning and return true and
makes the hard gate append one error and return false; at or above the
threshold both modes return true and record nothing; the gate blocks
exactly when space is short and the mode is hard. -/
theorem c8_capacity_gate (freeMB requiredMB : ℚ) (st : RunState) :
    checkDiskSpace (some freeMB) requiredMB true st
      = (true, if freeMB < requiredMB then addWarn st msgInsufficientSpace
               else st)
    ∧ checkDiskSpace (some freeMB) requiredMB false st
      = (if freeMB < requiredMB then (false, addErr st msgInsufficientSpace)
         else (true, st))
    ∧ (∀ w : Bool, (checkDiskSpace (some freeMB) requiredMB w st).1 = false
        ↔ freeMB < requiredMB ∧ w = false) := by
  by_cases h : freeMB < requiredMB
  · refine ⟨by simp [checkDiskSpace, h], by simp [checkDiskSpace, h], ?_⟩
    intro w; cases w <;> simp [checkDiskSpace, h]
  · refine ⟨by simp [checkDiskSpace, h], by simp [checkDiskSpace, h], ?_⟩
    intro w; cases w <;> simp [checkDiskSpace, h]

/-- Claim C9: when reading the free disk space raises, _check_disk_space
returns true in both modes and appends neither an error nor a warning
(the except branch only logs), so the hard preflight gate admits the run. -/
theorem c9_capacity_probe_failure (requiredMB : ℚ) (w : Bool)
    (st : RunState) : checkDiskSpace none requiredMB w st = (true, st) := rfl

/-! Local retention sweep: cleanup_local_backups.  Files are the result of
glob("*.sql.gz") on the backup directory, given as pairs of path and
modification time (microsecond ticks, Int).  The cutoff is
datetime.now() - timedelta(days=LOCAL_RETENTION_DAYS). -/

def ledgerFileName : String := ".failed_uploads.json"

def usPerDay : Int := 86400000000

/-- Loop body of cleanup_local_backups over the globbed files: skip the
ledger file itself; delete a file older than the cutoff with no ledger
entry; delete a file whose ledger entry has retry_count at the maximum and
erase that entry; leave every other file alone.  Returns the deleted paths
and the final ledger. -/
def cleanupLocalGo (cutoff : Int) :
    List (String × Int) → Ledger → List String × Ledger
  | [], l => ([], l)
  | (p, t) :: rest, l =>
    if p = ledgerFileName then cleanupLocalGo cutoff rest l
    else
      match lookupL p l with
      | none =>
        if t < cutoff then
          let r := cleanupLocalGo cutoff rest l
          (p :: r.1, r.2)
        else cleanupLocalGo cutoff rest l
      | some e =>
        if MAX_UPLOAD_RETRIES ≤ e.retry_count then
          let r := cleanupLocalGo cutoff rest (ledgerErase p l)
          (p :: r.1, r.2)
        else cleanupLocalGo cutoff rest l

/-- cleanup_local_backups (the *.sql.gz sweep proper; the temp-file sweep
touches only *.sql scratch files and is outside the claims). -/
def cleanupLocalBackups (now : Int) (files : List (String × Int))
    (l : Ledger) : List String × Ledger :=
  cleanupLocalGo (now - (LOCAL_RETENTION_DAYS : Int) * usPerDay) files l

theorem cleanupLocalGo_subset (cutoff : Int) (files : List (String × Int)) :
    ∀ (l : Ledger) (p : String), p ∈ (cleanupLocalGo cutoff files l).1 →
      p ∈ files.map Prod.fst := by
  induction files with
  | nil => intro l p h; simp [cleanupLocalGo] at h
  | cons hd rest ih =>
    intro l p h
    obtain ⟨q, t⟩ := hd
    by_cases hq : q = ledgerFileName
    · simp only [cleanupLocalGo, if_pos hq] at h
      simpa using Or.inr (ih l p h)
    · simp only [cleanupLocalGo, if_neg hq] at h
      cases hl : lookupL q l with
      | none =>
        simp only [hl] at h
        by_cases ht : t < cutoff
        · rw [if_pos ht] at h
          rcases List.mem_cons.mp h with h | h
          · simp [h]
          · simpa using Or.inr (ih l p h)
        · rw [if_neg ht] at h
          simpa using Or.inr (ih l p h)
      | some e =>
        simp only [hl] at h
        by_cases hr : MAX_UPLOAD_RETRIES ≤ e.retry_count
        · rw [if_pos hr] at h
          rcases List.mem_cons.mp h with h | h
          · simp [h]
          · simpa using Or.inr (ih (ledgerErase q l) p h)
        · rw [if_neg hr] at h
          simpa using Or.inr (ih l p h)

theorem cleanupLocalGo_lookup_none (cutoff : Int)
    (files : List (String × Int)) :
    ∀ (l : Ledger) (p : String), lookupL p l = none →
      lookupL p (cleanupLocalGo cutoff files l).2 = none := by
  induction files with
  | nil => intro l p h; simpa [cleanupLocalGo] using h
  | cons hd rest ih =>
    intro l p h
    obtain ⟨q, t⟩ := hd
    by_cases hq : q = ledgerFileName
    · simp only [cleanupLocalGo, if_pos hq]
      exact ih l p h
    · simp only [cleanupLocalGo, if_neg hq]
      cases hl : lookupL q l with
      | none =>
        simp only [hl]
        by_cases ht : t < cutoff
        · rw [if_pos ht]; exact ih l p h
        · rw [if_neg ht]; exact ih l p h
      | some e =>
        simp only [hl]
        by_cases hr : MAX_UPLOAD_RETRIES ≤ e.retry_count
        · rw [if_pos hr]
          refine ih (ledgerErase q l) p ?_
          rw [lookupL_erase]
          by_cases hpq : p = q <;> simp [hpq, h]
        · rw [if_neg hr]; exact ih l p h

theorem cleanupLocalGo_spec (cutoff : Int) (files : List (String × Int)) :
    ∀ (l : Ledger), (files.map Prod.fst).Nodup →
      (∀ q ∈ files.map Prod.fst, q ≠ ledgerFileName) →
      ∀ p t, (p, t) ∈ files →
        (p ∈ (cleanupLocalGo cutoff files l).1 ↔
          (t < cutoff ∧ lookupL p l = none) ∨
          (∃ e, lookupL p l = some e ∧ MAX_UPLOAD_RETRIES ≤ e.retry_count))
        ∧ (∀ e, lookupL p l = some e → MAX_UPLOAD_RETRIES ≤ e.retry_count →
            lookupL p (cleanupLocalGo cutoff files l).2 = none) := by
  induction files with
  | nil => intro l _ _ p t hmem; simp at hmem
  | cons hd rest ih =>
    intro l hnd hfn p t hmem
    obtain ⟨q, tq⟩ := hd
    obtain ⟨hndq, hndr⟩ :
        q ∉ rest.map Prod.fst ∧ (rest.map Prod.fst).Nodup := by
      rw [List.map_cons] at hnd
      exact List.nodup_cons.mp hnd
    have hfnq : q ≠ ledgerFileName := hfn q (by simp)
    have hfnr : ∀ r ∈ rest.map Prod.fst, r ≠ ledgerFileName :=
      fun r hr => hfn r (by simp [hr])
    rcases List.mem_cons.mp hmem with hhd | htl
    · -- the file under consideration is the head of the list
      injection hhd with hp ht
      subst hp; subst ht
      simp only [cleanupLocalGo, if_neg hfnq]
      cases hl : lookupL p l with
      | none =>
        simp only [hl]
        by_cases htc : t < cutoff
        · rw [if_pos htc]
          refine ⟨by simp [htc], ?_⟩
          intro e he; exact absurd he (by simp)
        · rw [if_neg htc]
          constructor
          · constructor
            · intro hin
              exact absurd (cleanupLocalGo_subset cutoff rest l p hin) hndq
            · rintro (⟨h1, _⟩ | ⟨e, he, _⟩)
              · exact absurd h1 htc
              · exact absurd he (by simp)
          · intro e he; exact absurd he (by simp)
      | some e0 =>
        simp only [hl]
        by_cases hr : MAX_UPLOAD_RETRIES ≤ e0.retry_count
        · rw [if_pos hr]
          refine ⟨⟨fun _ => Or.inr ⟨e0, rfl, hr⟩,
            fun _ => List.mem_cons_self _ _⟩, ?_⟩
          intro e he _
          refine cleanupLocalGo_lookup_none cutoff rest (ledgerErase p l) p ?_
          exact lookupL_erase_self p l
        · rw [if_neg hr]
          constructor
          · constructor
            · intro hin
              exact absurd (cleanupLocalGo_subset cutoff rest l p hin) hndq
            · rintro (⟨_, h2⟩ | ⟨e, he, hrc⟩)
              · exact absurd h2 (by simp)
              · injection he with hee
                exact absurd (hee.symm ▸ hrc) hr
          · intro e he hrc
            injection he with hee
            exact absurd (hee.symm ▸ hrc) hr
    · -- the file under consideration sits in the tail
      have hppair : p ∈ rest.map Prod.fst :=
        List.mem_map.mpr ⟨(p, t), htl, rfl⟩
      have hpq : p ≠ q := fun hpq => hndq (hpq ▸ hppair)
      simp only [cleanupLocalGo, if_neg hfnq]
      cases hl : lookupL q l with
      | none =>
        simp only [hl]
        by_cases htc : tq < cutoff
        · rw [if_pos htc]
          obtain ⟨h1, h2⟩ := ih l hndr hfnr p t htl
          exact ⟨by simpa [hpq] using h1, h2⟩
        · rw [if_neg htc]
          exact ih l hndr hfnr p t htl
      | some e0 =>
        simp only [hl]
        by_cases hr : MAX_UPLOAD_RETRIES ≤ e0.retry_count
        · rw [if_pos hr]
          obtain ⟨h1, h2⟩ := ih (ledgerErase q l) hndr hfnr p t htl
          have hle : lookupL p (ledgerErase q l) = lookupL p l :=
            lookupL_erase_ne p q l hpq
          rw [hle] at h1 h2
          exact ⟨by simpa [hpq] using h1, h2⟩
        · rw [if_neg hr]
          exact ih l hndr hfnr p t htl

/-- Claim C5: the local sweep deletes a file precisely when it is older
than the local-retention cutoff and absent from the ledger, or its ledger
entry has retry_count at the maximum (regardless of age, and then the
entry is erased in the same pass); every other file is untouched, and
everything deleted comes from the globbed file list.  The hypotheses hold
for any real glob result: distinct paths, none of which is the ledger
file (the glob pattern *.sql.gz cannot produce .failed_uploads.json). -/
theorem c5_local_sweep (now : Int) (files : List (String × Int))
    (l : Ledger) (hnd : (files.map Prod.fst).Nodup)
    (hfn : ∀ q ∈ files.map Prod.fst, q ≠ ledgerFileName) :
    (∀ p ∈ (cleanupLocalBackups now files l).1, p ∈ files.map Prod.fst)
    ∧ ∀ p t, (p, t) ∈ files →
        (p ∈ (cleanupLocalBackups now files l).1 ↔
          (t < now - (LOCAL_RETENTION_DAYS : Int) * usPerDay ∧
            lookupL p l = none) ∨
          (∃ e, lookupL p l = some e ∧ MAX_UPLOAD_RETRIES ≤ e.retry_count))
        ∧ (∀ e, lookupL p l = some e → MAX_UPLOAD_RETRIES ≤ e.retry_count →
            lookupL p (cleanupLocalBackups now files l).2 = none) := by
  refine ⟨fun p hp => cleanupLocalGo_subset _ files l p hp, ?_⟩
  intro p t hmem
  exact cleanupLocalGo_spec _ files l hnd hfn p t hmem

def fOldW : String := "sales_20230101_120000_000001.sql.gz"

def fYoungW : String := "app_db_20240601_120000_000001.sql.gz"

def fMaxedW : String := "analytics_20230505_120000_000001.sql.gz"

def filesW : List (String × Int) :=
  [(fOldW, 0), (fYoungW, 604800000000), (fMaxedW, 604799999999)]

def ledgerW : Ledger := [(fMaxedW, ⟨fMaxedW, 0, 3, 0⟩)]

/-- Witness for claim C5 at a concrete sweep: one stale uploaded file, one
young file, one young file with a maxed-out ledger entry. -/
theorem c5_local_sweep_witness :
    ((filesW.map Prod.fst).Nodup)
    ∧ (∀ q ∈ filesW.map Prod.fst, q ≠ ledgerFileName)
    ∧ ((fMaxedW, (604799999999 : Int)) ∈ filesW)
    ∧ ((fMaxedW ∈ (cleanupLocalBackups 604800000001 filesW ledgerW).1 ↔
          ((604799999999 : Int) < 604800000001 -
              (LOCAL_RETENTION_DAYS : Int) * usPerDay ∧
            lookupL fMaxedW ledgerW = none) ∨
          (∃ e, lookupL fMaxedW ledgerW = some e ∧
            MAX_UPLOAD_RETRIES ≤ e.retry_count))) :=
  ⟨by decide, by decide, by decide,
    (((c5_local_sweep 604800000001 filesW ledgerW (by decide)
        (by decide)).2) fMaxedW 604799999999 (by decide)).1⟩

/-! Remote retention sweep: cleanup_old_backups_azure parses the date out
of each blob name with re.search of the raw pattern
underscore, 8 digits, underscore, 6 digits, underscore, one or more
digits, then .sql.gz at the end of the name.  matchAt checks the pattern
at one start position (the regex engine needs no backtracking here: the
digit run of the plus is delimited by the final literal), searchDate scans
the start positions left to right as re.search does. -/

def sfxGz : List Char := ['.', 's', 'q', 'l', '.', 'g', 'z']

/-- One anchored attempt of the date regex at the head of t, returning the
8-digit capture group. -/
def matchAt (t : List Char) : Option (List Char) :=
  if t.take 1 = ['_']
      ∧ ((t.drop 1).take 8).length = 8
      ∧ ((t.drop 1).take 8).all Char.isDigit = true
      ∧ (t.drop 9).take 1 = ['_']
      ∧ ((t.drop 10).take 6).length = 6
      ∧ ((t.drop 10).take 6).all Char.isDigit = true
      ∧ (t.drop 16).take 1 = ['_']
      ∧ (t.drop 17).take (t.length - 24) ≠ []
      ∧ ((t.drop 17).take (t.length - 24)).all Char.isDigit = true
      ∧ (t.drop 17).drop (t.length - 24) = sfxGz
  then some ((t.drop 1).take 8) else none

/-- re.search: try every start position from the left, first hit wins. -/
def searchDate : List Char → Option (List Char)
  | [] => none
  | c :: t =>
    match matchAt (c :: t) with
    | some d => some d
    | none => searchDate t

/-- A successful anchored match is exactly a decomposition of the string
into underscore-separated digit blocks followed by the .sql.gz suffix. -/
theorem matchAt_some_iff (t c : List Char) :
    matchAt t = some c ↔
      ∃ e8 e6 ek, t = '_' :: (e8 ++ '_' :: (e6 ++ '_' :: (ek ++ sfxGz)))
        ∧ e8.length = 8 ∧ e8.all Char.isDigit = true
        ∧ e6.length = 6 ∧ e6.all Char.isDigit = true
        ∧ ek ≠ [] ∧ ek.all Char.isDigit = true
        ∧ c = e8 := by
  constructor
  · intro h
    unfold matchAt at h
    split_ifs at h with hC
    · obtain ⟨h1, h2, h3, h4, h5, h6, h7, h8, h9, h10⟩ := hC
      injection h with hc
      refine ⟨(t.drop 1).take 8, (t.drop 10).take 6,
        (t.drop 17).take (t.length - 24), ?_, h2, h3, h5, h6, h8, h9,
        hc.symm⟩
      have hsplit2 : t.drop 1 = (t.drop 1).take 8 ++ t.drop 9 := by
        conv_lhs => rw [← List.take_append_drop 8 (t.drop 1)]
        rw [List.drop_drop]
      have hsplit3 : t.drop 9 = ['_'] ++ t.drop 10 := by
        conv_lhs => rw [← List.take_append_drop 1 (t.drop 9)]
        rw [h4, List.drop_drop]
      have hsplit4 : t.drop 10 = (t.drop 10).take 6 ++ t.drop 16 := by
        conv_lhs => rw [← List.take_append_drop 6 (t.drop 10)]
        rw [List.drop_drop]
      have hsplit5 : t.drop 16 = ['_'] ++ t.drop 17 := by
        conv_lhs => rw [← List.take_append_drop 1 (t.drop 16)]
        rw [h7, List.drop_drop]
      have hsplit6 : t.drop 17 =
          (t.drop 17).take (t.length - 24) ++ sfxGz := by
        conv_lhs =>
          rw [← List.take_append_drop (t.length - 24) (t.drop 17)]
        rw [h10]
      conv_lhs => rw [← List.take_append_drop 1 t]
      rw [h1]
      conv_lhs => rw [hsplit2]
      conv_lhs => rw [hsplit3]
      conv_lhs => rw [hsplit4]
      conv_lhs => rw [hsplit5]
      conv_lhs => rw [hsplit6]
      simp
  · rintro ⟨e8, e6, ek, ht, h8l, h8d, h6l, h6d, hkne, hkd, hc⟩
    rw [hc]
    subst ht
    have hL1 : ('_' :: (e8 ++ '_' :: (e6 ++ '_' :: (ek ++ sfxGz)))).drop 1
        = e8 ++ '_' :: (e6 ++ '_' :: (ek ++ sfxGz)) := rfl
    have hL9 : ('_' :: (e8 ++ '_' :: (e6 ++ '_' :: (ek ++ sfxGz)))).drop 9
        = '_' :: (e6 ++ '_' :: (ek ++ sfxGz)) := by
      have hd : ('_' :: (e8 ++ '_' :: (e6 ++ '_' :: (ek ++ sfxGz)))).drop 9
          = (('_' :: (e8 ++ '_' :: (e6 ++ '_' :: (ek ++ sfxGz)))).drop 1).drop 8 := by
        rw [List.drop_drop]
      rw [hd, hL1, List.drop_left' h8l]
    have hL10 : ('_' :: (e8 ++ '_' :: (e6 ++ '_' :: (ek ++ sfxGz)))).drop 10
        = e6 ++ '_' :: (ek ++ sfxGz) := by
      have hd : ('_' :: (e8 ++ '_' :: (e6 ++ '_' :: (ek ++ sfxGz)))).drop 10
          = (('_' :: (e8 ++ '_' :: (e6 ++ '_' :: (ek ++ sfxGz)))).drop 9).drop 1 := by
        rw [List.drop_drop]
      rw [hd, hL9]
      rfl
    have hL16 : ('_' :: (e8 ++ '_' :: (e6 ++ '_' :: (ek ++ sfxGz)))).drop 16
        = '_' :: (ek ++ sfxGz) := by
      have hd : ('_' :: (e8 ++ '_' :: (e6 ++ '_' :: (ek ++ sfxGz)))).drop 16
          = (('_' :: (e8 ++ '_' :: (e6 ++ '_' :: (ek ++ sfxGz)))).drop 10).drop 6 := by
        rw [List.drop_drop]
      rw [hd, hL10, List.drop_left' h6l]
    have hL17 : ('_' :: (e8 ++ '_' :: (e6 ++ '_' :: (ek ++ sfxGz)))).drop 17
        = ek ++ sfxGz := by
      have hd : ('_' :: (e8 ++ '_' :: (e6 ++ '_' :: (ek ++ sfxGz)))).drop 17
          = (('_' :: (e8 ++ '_' :: (e6 ++ '_' :: (ek ++ sfxGz)))).drop 16).drop 1 := by
        rw [List.drop_drop]
      rw [hd, hL16]
      rfl
    have hlen24 :
        ('_' :: (e8 ++ '_' :: (e6 ++ '_' :: (ek ++ sfxGz)))).length - 24
          = ek.length := by
      simp only [List.length_cons, List.length_append, h8l, h6l, sfxGz,
        List.length_cons, List.length_nil]
      omega
    unfold matchAt
    rw [if_pos]
    · rw [hL1, List.take_left' h8l]
    · refine ⟨rfl, ?_, ?_, ?_, ?_, ?_, ?_, ?_, ?_, ?_⟩
      · rw [hL1, List.take_left' h8l]; exact h8l
      · rw [hL1, List.take_left' h8l]; exact h8d
      · rw [hL9]; rfl
      · rw [hL10, List.take_left' h6l]; exact h6l
      · rw [hL10, List.take_left' h6l]; exact h6d
      · rw [hL16]; rfl
      · rw [hL17, hlen24, List.take_left]; exact hkne
      · rw [hL17, hlen24, List.take_left]; exact hkd
      · rw [hL17, hlen24, List.drop_left]

theorem searchDate_some_split (s c : List Char) (h : searchDate s = some c) :
    ∃ p t, s = p ++ t ∧ matchAt t = some c := by
  induction s with
  | nil => simp [searchDate] at h
  | cons a s ih =>
    cases hm : matchAt (a :: s) with
    | some d =>
      simp only [searchDate, hm] at h
      have hdc : d = c := by simpa using h
      exact ⟨[], a :: s, by simp, by rw [hm, hdc]⟩
    | none =>
      simp only [searchDate, hm] at h
      obtain ⟨p, t, hs, hmt⟩ := ih h
      exact ⟨a :: p, t, by simp [hs], hmt⟩

theorem searchDate_isSome_of (p t c : List Char)
    (hm : matchAt t = some c) : (searchDate (p ++ t)).isSome := by
  induction p with
  | nil =>
    cases t with
    | nil =>
      rw [show matchAt ([] : List Char) = none from by decide] at hm
      exact absurd hm (by simp)
    | cons a s => simp [searchDate, hm]
  | cons b p ih =>
    simp only [List.cons_append, searchDate]
    cases hmb : matchAt (b :: (p ++ t)) with
    | some d => simp
    | none => simpa using ih

theorem no_underscore_in_run (u v Z : List Char) (z : Char)
    (hu : u.all Char.isDigit = true)
    (h : '_' :: (u ++ sfxGz) = z :: (Z ++ '_' :: (v ++ sfxGz))) : False := by
  injection h with hz htail
  have hmem : '_' ∈ u ++ sfxGz := by
    rw [htail]
    exact List.mem_append_right _ (List.mem_cons_self _ _)
  rcases List.mem_append.mp hmem with hin | hin
  · exact absurd ((List.all_eq_true.mp hu) '_' hin) (by decide)
  · exact absurd hin (by decide)

/-- Two underscore-delimited digit runs ending in the same .sql.gz suffix
of the same string coincide: the digit run cannot absorb or cross an
underscore.  This is what makes the trailing date pattern unambiguous. -/
theorem digit_run_align (X Y u v : List Char)
    (hu : u.all Char.isDigit = true) (hv : v.all Char.isDigit = true)
    (h : X ++ '_' :: (u ++ sfxGz) = Y ++ '_' :: (v ++ sfxGz)) :
    X = Y ∧ u = v := by
  rcases List.append_eq_append_iff.mp h with ⟨a, hY, ha⟩ | ⟨a, hX, ha⟩
  · cases a with
    | nil =>
      simp only [List.append_nil] at hY
      simp only [List.nil_append] at ha
      injection ha with _ ha'
      obtain ⟨huv, _⟩ := List.append_inj' ha' rfl
      exact ⟨hY.symm, huv⟩
    | cons z Z =>
      exact (no_underscore_in_run u v Z z hu (by simpa using ha)).elim
  · cases a with
    | nil =>
      simp only [List.append_nil] at hX
      simp only [List.nil_append] at ha
      injection ha with _ ha'
      obtain ⟨huv, _⟩ := List.append_inj' ha' rfl
      exact ⟨hX, huv.symm⟩
    | cons z Z =>
      exact (no_underscore_in_run v u Z z hv (by simpa using ha)).elim

/-- Wherever the search finds a match inside a string that has the
wellformed trailing date block, the captured group is that block's first
8-digit run. -/
theorem capture_unique (A d8 d6 dk pre t c : List Char)
    (_h8d : d8.all Char.isDigit = true) (h8l : d8.length = 8)
    (_h6d : d6.all Char.isDigit = true) (h6l : d6.length = 6)
    (hkd : dk.all Char.isDigit = true)
    (hs : A ++ '_' :: (d8 ++ '_' :: (d6 ++ '_' :: (dk ++ sfxGz))) = pre ++ t)
    (hm : matchAt t = some c) : c = d8 := by
  obtain ⟨e8, e6, ek, ht, e8l, e8d, e6l, e6d, _, ekd, hc⟩ :=
    (matchAt_some_iff t c).mp hm
  rw [ht] at hs
  have hs' : (A ++ '_' :: d8 ++ '_' :: d6) ++ '_' :: (dk ++ sfxGz)
      = (pre ++ '_' :: e8 ++ '_' :: e6) ++ '_' :: (ek ++ sfxGz) := by
    simpa [List.append_assoc, List.cons_append] using hs
  obtain ⟨hXY, _⟩ := digit_run_align _ _ _ _ hkd ekd hs'
  obtain ⟨hXY2, _⟩ := List.append_inj' hXY (by simp [h6l, e6l])
  obtain ⟨_, hd8s⟩ := List.append_inj' hXY2 (by simp [h8l, e8l])
  injection hd8s with _ hd8
  rw [hc]
  exact hd8.symm

/-- On any string ending in the wellformed date block the search succeeds
and captures exactly the 8-digit date run, however many underscores or
digit runs the front part contains. -/
theorem searchDate_wellformed (A d8 d6 dk : List Char)
    (h8l : d8.length = 8) (h8d : d8.all Char.isDigit = true)
    (h6l : d6.length = 6) (h6d : d6.all Char.isDigit = true)
    (hkne : dk ≠ []) (hkd : dk.all Char.isDigit = true) :
    searchDate (A ++ '_' :: (d8 ++ '_' :: (d6 ++ '_' :: (dk ++ sfxGz))))
      = some d8 := by
  have hm : matchAt ('_' :: (d8 ++ '_' :: (d6 ++ '_' :: (dk ++ sfxGz))))
      = some d8 :=
    (matchAt_some_iff _ _).mpr
      ⟨d8, d6, dk, rfl, h8l, h8d, h6l, h6d, hkne, hkd, rfl⟩
  have hsome := searchDate_isSome_of A _ d8 hm
  obtain ⟨c, hcEq⟩ := Option.isSome_iff_exists.mp hsome
  obtain ⟨p, t, hsplit, hmt⟩ := searchDate_some_split _ c hcEq
  have hcd := capture_unique A d8 d6 dk p t c h8d h8l h6d h6l hkd hsplit hmt
  rw [hcEq, hcd]

/-- Numeric value of a digit string (int() on the captured group). -/
def digitsToNat (l : List Char) : Nat :=
  l.foldl (fun a c => a * 10 + (c.toNat - 48)) 0

def isLeap (y : Nat) : Bool :=
  decide ((y % 4 = 0 ∧ y % 100 ≠ 0) ∨ y % 400 = 0)

def daysInMonth (y m : Nat) : Nat :=
  if m = 2 then (if isLeap y then 29 else 28)
  else if m = 4 ∨ m = 6 ∨ m = 9 ∨ m = 11 then 30
  else 31

/-- datetime.strptime(s, the year-month-day format) on an 8-digit string
succeeds exactly when the 4-2-2 split is a real calendar date: months 1-12
with at most two digits are matched greedily by the strptime regex (any
other split leaves unconverted trailing data and raises), and the datetime
constructor then enforces year 1-9999 and the day range of the month. -/
def validDate (y m d : Nat) : Bool :=
  decide (1 ≤ y ∧ y ≤ 9999 ∧ 1 ≤ m ∧ m ≤ 12 ∧ 1 ≤ d ∧ d ≤ daysInMonth y m)

/-- Rata-die style day number of a civil date (standard era-based
formula); gives the chronological order that comparing datetime values at
midnight gives. -/
def daysFromCivil (y m d : Nat) : Int :=
  let y2 := if m ≤ 2 then y - 1 else y
  let era := y2 / 400
  let yoe := y2 % 400
  let mp := (m + 9) % 12
  let doy := (153 * mp + 2) / 5 + (d - 1)
  let doe := yoe * 365 + yoe / 4 - yoe / 100 + doy
  ((era * 146097 + doe : Nat) : Int) - 719468

/-- Chronological order on datetime values represented as a day number
plus the microseconds elapsed in that day. -/
def dtLtB (a b : Int × Nat) : Bool :=
  decide (a.1 < b.1 ∨ (a.1 = b.1 ∧ a.2 < b.2))

/-- The date a blob name yields: the regex search for the trailing date
pattern followed by strptime of the captured 8 digits.  none when either
step fails (such a blob is only logged). -/
def parseBlobDate (b : List Char) : Option (Nat × Nat × Nat) :=
  match searchDate b with
  | none => none
  | some d8 =>
    if validDate (digitsToNat (d8.take 4)) (digitsToNat ((d8.drop 4).take 2))
        (digitsToNat (d8.drop 6))
    then some (digitsToNat (d8.take 4), digitsToNat ((d8.drop 4).take 2),
      digitsToNat (d8.drop 6))
    else none

/-- Deletion test of cleanup_old_backups_azure for one listed blob:
parse the date and compare the blob date (midnight) against
datetime.now() minus RETENTION_DAYS days, strictly. -/
def shouldDeleteBlob (now : Int × Nat) (b : List Char) : Bool :=
  match parseBlobDate b with
  | none => false
  | some (y, m, d) =>
    dtLtB (daysFromCivil y m d, 0) (now.1 - (RETENTION_DAYS : Int), now.2)

/-- The sweep over the blob listing: exactly the blobs passing the test
are deleted. -/
def cleanupOldBackupsAzure (now : Int × Nat) (blobs : List (List Char)) :
    List (List Char) :=
  blobs.filter (shouldDeleteBlob now)

theorem parse_of (b c : List Char) (hs : searchDate b = some c)
    (hv : validDate (digitsToNat (c.take 4)) (digitsToNat ((c.drop 4).take 2))
      (digitsToNat (c.drop 6)) = true) :
    parseBlobDate b = some (digitsToNat (c.take 4),
      digitsToNat ((c.drop 4).take 2), digitsToNat (c.drop 6)) := by
  unfold parseBlobDate
  simp only [hs]
  rw [if_pos hv]

theorem parse_some_elim (b : List Char) (y m d : Nat)
    (h : parseBlobDate b = some (y, m, d)) :
    ∃ c, searchDate b = some c ∧ y = digitsToNat (c.take 4)
      ∧ m = digitsToNat ((c.drop 4).take 2) ∧ d = digitsToNat (c.drop 6)
      ∧ validDate y m d = true := by
  unfold parseBlobDate at h
  cases hs : searchDate b with
  | none =>
    simp only [hs] at h
    exact absurd h (by simp)
  | some c =>
    simp only [hs] at h
    split_ifs at h with hv
    obtain ⟨h1, h2, h3⟩ :
        digitsToNat (c.take 4) = y ∧ digitsToNat ((c.drop 4).take 2) = m
          ∧ digitsToNat (c.drop 6) = d := by
      simpa [Prod.ext_iff] using h
    exact ⟨c, rfl, h1.symm, h2.symm, h3.symm,
      by rw [← h1, ← h2, ← h3]; exact hv⟩

/-- Claim C6: a listed blob is deleted by the remote retention sweep iff
its name decomposes with the trailing pattern of an underscore, 8 digits,
underscore, 6 digits, underscore, a nonempty digit run and the .sql.gz
suffix, the captured 8 digits form a real calendar date, and that date is
strictly before now minus the remote retention window; blobs without such
a parse are never deleted. -/
theorem c6_remote_sweep_iff (now : Int × Nat) (blobs : List (List Char))
    (b : List Char) :
    b ∈ cleanupOldBackupsAzure now blobs ↔
      b ∈ blobs ∧ ∃ d8 d6 dk A,
        b = A ++ '_' :: (d8 ++ '_' :: (d6 ++ '_' :: (dk ++ sfxGz)))
        ∧ d8.length = 8 ∧ d8.all Char.isDigit = true
        ∧ d6.length = 6 ∧ d6.all Char.isDigit = true
        ∧ dk ≠ [] ∧ dk.all Char.isDigit = true
        ∧ validDate (digitsToNat (d8.take 4))
            (digitsToNat ((d8.drop 4).take 2))
            (digitsToNat (d8.drop 6)) = true
        ∧ dtLtB (daysFromCivil (digitsToNat (d8.take 4))
              (digitsToNat ((d8.drop 4).take 2))
              (digitsToNat (d8.drop 6)), 0)
            (now.1 - (RETENTION_DAYS : Int), now.2) = true := by
  simp only [cleanupOldBackupsAzure, List.mem_filter]
  refine and_congr_right fun _ => ?_
  constructor
  · intro h
    unfold shouldDeleteBlob at h
    cases hp : parseBlobDate b with
    | none =>
      simp only [hp] at h
      exact absurd h (by decide)
    | some ymd =>
      obtain ⟨y, m, d⟩ := ymd
      simp only [hp] at h
      obtain ⟨c, hs, hy, hm2, hd2, hv⟩ := parse_some_elim b y m d hp
      obtain ⟨p, t, hsplit, hmt⟩ := searchDate_some_split b c hs
      obtain ⟨e8, e6, ek, ht, e8l, e8d, e6l, e6d, ekne, ekd, hc⟩ :=
        (matchAt_some_iff t c).mp hmt
      rw [← hc] at ht
      refine ⟨c, e6, ek, p, ?_, ?_, ?_, e6l, e6d, ekne, ekd, ?_, ?_⟩
      · rw [hsplit, ht]
      · rw [hc]; exact e8l
      · rw [hc]; exact e8d
      · rw [hy, hm2, hd2] at hv; exact hv
      · rw [← hy, ← hm2, ← hd2]; exact h
  · rintro ⟨d8, d6, dk, A, hb, h8l, h8d, h6l, h6d, hkne, hkd, hv, hlt⟩
    have hs : searchDate b = some d8 := by
      rw [hb]
      exact searchDate_wellformed A d8 d6 dk h8l h8d h6l h6d hkne hkd
    have hp := parse_of b d8 hs hv
    unfold shouldDeleteBlob
    simp only [hp]
    exact hlt

/-! ArtifactPipeline naming: _sanitize_filename and the timestamped
artifact name of backup_database. -/

/-- The allow-list character class of the sanitizer regex: ASCII letters,
digits, underscore and hyphen. -/
def allowedChar (c : Char) : Bool :=
  (decide ('a' ≤ c) && decide (c ≤ 'z'))
    || (decide ('A' ≤ c) && decide (c ≤ 'Z'))
    || (decide ('0' ≤ c) && decide (c ≤ '9'))
    || c == '_' || c == '-'

/-- _sanitize_filename: replace every character outside the allow-list by
an underscore, then truncate to 50 characters. -/
def sanitizeFilename (name : List Char) : List Char :=
  (name.map fun c => if allowedChar c then c else '_').take 50

/-- One decimal digit character. -/
def digCh (d : Nat) : Char := Char.ofNat (48 + d)

/-- Two-digit zero-padded strftime field (month, day, hour, minute,
second). -/
def pad2 (n : Nat) : List Char := [digCh (n / 10 % 10), digCh (n % 10)]

/-- Four-digit year field. -/
def pad4 (n : Nat) : List Char :=
  [digCh (n / 1000 % 10), digCh (n / 100 % 10), digCh (n / 10 % 10),
    digCh (n % 10)]

/-- Six-digit zero-padded microsecond field. -/
def pad6 (n : Nat) : List Char :=
  [digCh (n / 100000 % 10), digCh (n / 10000 % 10), digCh (n / 1000 % 10),
    digCh (n / 100 % 10), digCh (n / 10 % 10), digCh (n % 10)]

/-- The artifact name built in backup_database: the sanitized database
name, an underscore, the strftime timestamp with year-month-day, an
underscore, hour-minute-second, an underscore, microseconds, and the
.sql.gz extension. -/
def buildBackupName (db : List Char) (y mo d hh mi ss us : Nat) :
    List Char :=
  sanitizeFilename db ++ '_' :: ((pad4 y ++ pad2 mo ++ pad2 d) ++ '_' ::
    ((pad2 hh ++ pad2 mi ++ pad2 ss) ++ '_' :: (pad6 us ++ sfxGz)))

theorem isDigit_digCh : ∀ d, d < 10 → (digCh d).isDigit = true := by decide

theorem toNat_digCh : ∀ d, d < 10 → (digCh d).toNat = 48 + d := by decide

theorem isDigit_digCh_mod (n : Nat) : (digCh (n % 10)).isDigit = true :=
  isDigit_digCh _ (Nat.mod_lt _ (by decide))

theorem digitsToNat_pad4 (n : Nat) (h : n < 10000) :
    digitsToNat (pad4 n) = n := by
  unfold digitsToNat pad4
  simp only [List.foldl]
  rw [toNat_digCh _ (Nat.mod_lt _ (by decide)),
    toNat_digCh _ (Nat.mod_lt _ (by decide)),
    toNat_digCh _ (Nat.mod_lt _ (by decide)),
    toNat_digCh _ (Nat.mod_lt _ (by decide))]
  omega

theorem digitsToNat_pad2 (n : Nat) (h : n < 100) :
    digitsToNat (pad2 n) = n := by
  unfold digitsToNat pad2
  simp only [List.foldl]
  rw [toNat_digCh _ (Nat.mod_lt _ (by decide)),
    toNat_digCh _ (Nat.mod_lt _ (by decide))]
  omega

theorem daysInMonth_le (y m : Nat) : daysInMonth y m ≤ 31 := by
  unfold daysInMonth
  split_ifs <;> omega

/-- Claim C7: for every database identifier and creation timestamp the
produced artifact name is matched by the remote sweep pattern with the
capture equal to the year-month-day block, and the parsed date is the
creation date, no matter what the sanitized name fragment looks like.
The year bounds come from the datetime range (1 to 9999); month and day
are a real calendar date as datetime.now() always yields. -/
theorem c7_name_roundtrip (db : List Char) (y mo d hh mi ss us : Nat)
    (hy : 1 ≤ y ∧ y ≤ 9999) (hmo : 1 ≤ mo ∧ mo ≤ 12)
    (hd : 1 ≤ d ∧ d ≤ daysInMonth y mo) :
    searchDate (buildBackupName db y mo d hh mi ss us)
      = some (pad4 y ++ pad2 mo ++ pad2 d)
    ∧ parseBlobDate (buildBackupName db y mo d hh mi ss us)
      = some (y, mo, d) := by
  have h8l : (pad4 y ++ pad2 mo ++ pad2 d).length = 8 := by
    simp [pad4, pad2]
  have h8d : (pad4 y ++ pad2 mo ++ pad2 d).all Char.isDigit = true := by
    simp [pad4, pad2, isDigit_digCh_mod]
  have h6l : (pad2 hh ++ pad2 mi ++ pad2 ss).length = 6 := by simp [pad2]
  have h6d : (pad2 hh ++ pad2 mi ++ pad2 ss).all Char.isDigit = true := by
    simp [pad2, isDigit_digCh_mod]
  have hkne : pad6 us ≠ [] := by simp [pad6]
  have hkd : (pad6 us).all Char.isDigit = true := by
    simp [pad6, isDigit_digCh_mod]
  have hs : searchDate (buildBackupName db y mo d hh mi ss us)
      = some (pad4 y ++ pad2 mo ++ pad2 d) := by
    unfold buildBackupName
    exact searchDate_wellformed _ _ _ _ h8l h8d h6l h6d hkne hkd
  refine ⟨hs, ?_⟩
  have ht4 : (pad4 y ++ pad2 mo ++ pad2 d).take 4 = pad4 y := by
    rw [List.append_assoc]
    exact List.take_left' (by simp [pad4])
  have htd4 : (pad4 y ++ pad2 mo ++ pad2 d).drop 4 = pad2 mo ++ pad2 d := by
    rw [List.append_assoc]
    exact List.drop_left' (by simp [pad4])
  have ht2 : (pad2 mo ++ pad2 d).take 2 = pad2 mo :=
    List.take_left' (by simp [pad2])
  have ht6 : (pad4 y ++ pad2 mo ++ pad2 d).drop 6 = pad2 d := by
    have hdd : (pad4 y ++ pad2 mo ++ pad2 d).drop 6
        = ((pad4 y ++ pad2 mo ++ pad2 d).drop 4).drop 2 := by
      rw [List.drop_drop]
    rw [hdd, htd4]
    exact List.drop_left' (by simp [pad2])
  have e1 : digitsToNat (pad4 y) = y := digitsToNat_pad4 y (by omega)
  have e2 : digitsToNat (pad2 mo) = mo := digitsToNat_pad2 mo (by omega)
  have e3 : digitsToNat (pad2 d) = d := by
    refine digitsToNat_pad2 d ?_
    have := daysInMonth_le y mo
    omega
  have hv : validDate y mo d = true := by
    simp only [validDate, decide_eq_true_eq]
    exact ⟨hy.1, hy.2, hmo.1, hmo.2, hd.1, hd.2⟩
  have hp := parse_of _ _ hs
    (by rw [ht4, htd4, ht2, ht6, e1, e2, e3]; exact hv)
  rw [hp, ht4, htd4, ht2, ht6, e1, e2, e3]

def dbSampleW : List Char :=
  ['a', 'p', 'p', '_', 'd', 'b', '_', '0', '0', '7']

/-- Witness for claim C7 at a concrete database name containing
underscores and digits and a concrete timestamp. -/
theorem c7_name_roundtrip_witness :
    (1 ≤ 2024 ∧ 2024 ≤ 9999) ∧ (1 ≤ 6 ∧ 6 ≤ 12)
    ∧ (1 ≤ 1 ∧ 1 ≤ daysInMonth 2024 6)
    ∧ parseBlobDate (buildBackupName dbSampleW 2024 6 1 12 30 15 123456)
        = some (2024, 6, 1) :=
  ⟨by decide, by decide, by decide,
    (c7_name_roundtrip dbSampleW 2024 6 1 12 30 15 123456 (by decide)
      (by decide) (by decide)).2⟩

theorem mem_sanitize_allowed (name : List Char) (x : Char)
    (hx : x ∈ sanitizeFilename name) : allowedChar x = true := by
  unfold sanitizeFilename at hx
  have hx' : x ∈ name.map fun c => if allowedChar c then c else '_' :=
    List.take_subset _ _ hx
  obtain ⟨c, _, rfl⟩ := List.mem_map.mp hx'
  by_cases hc : allowedChar c
  · simp [hc]
  · rw [if_neg hc]; decide

theorem allowedChar_no_path_chars (c : Char) (h : allowedChar c = true) :
    decide (c ≠ '/' ∧ c ≠ '.' ∧ c ≠ '\\') = true := by
  rw [decide_eq_true_eq]
  refine ⟨?_, ?_, ?_⟩ <;> rintro rfl <;> revert h <;> decide

/-- Claim C10: the sanitizer output is at most 50 characters, consists
only of allow-list characters (so never a path separator or a dot), and
is positionwise the input with each disallowed character replaced by an
underscore, truncated at 50. -/
theorem c10_sanitize_filename (name : List Char) :
    (sanitizeFilename name).length ≤ 50
    ∧ (sanitizeFilename name).all allowedChar = true
    ∧ (∀ i : Nat, (sanitizeFilename name)[i]? =
        if i < 50 then
          (name[i]?).map fun c => if allowedChar c then c else '_'
        else none)
    ∧ (sanitizeFilename name).all
        (fun c => decide (c ≠ '/' ∧ c ≠ '.' ∧ c ≠ '\\')) = true := by
  refine ⟨?_, ?_, ?_, ?_⟩
  · rw [sanitizeFilename, List.length_take]
    omega
  · rw [List.all_eq_true]
    exact fun x hx => mem_sanitize_allowed name x hx
  · intro i
    rw [sanitizeFilename, List.getElem?_take]
    by_cases hi : i < 50 <;> simp [hi, List.getElem?_map]
  · rw [List.all_eq_true]
    exact fun x hx =>
      allowedChar_no_path_chars x (mem_sanitize_allowed name x hx)

/-! OrchestrationStateMachine: run_backup_procedure.  The environment
collects the outcomes of every external interaction: the two lock
attempts, the disk probe, the health issues, per-file existence and
upload outcomes, the enumerated databases, per-database maintenance
warnings and dump results.  The run returns the list of executed steps,
the run state and the final ledger.  The remote sweep only exchanges
requests with blob storage, so it appears as a step marker. -/

inductive Step where
  | acquireAttempt
  | preflight
  | healthCheck
  | retryPass
  | enumerate
  | backupDb (db : String)
  | cleanupAzure
  | cleanupLocal
  | notifyFinal
  | releaseLock
deriving DecidableEq, Repr

def msgInsufficientAbort : String := "Insufficient disk space - backup aborted"

def msgNoDatabases : String := "No databases found or error listing databases"

def msgBackupFailed : String := "Backup failed"

structure RunEnv where
  primaryLock : PrimaryLockResult
  fallbackLock : FallbackLockResult
  diskFree : Option ℚ
  healthIssues : List String
  fileExists : String → Bool
  uploadOut : String → UploadOutcome
  databases : List String
  preMaintWarns : String → List String
  backupResult : String → Option String
  postMaintWarns : String → List String
  notifyOnWarnings : Bool
  now : Nat
  nowLocal : Int
  localFiles : List (String × Int)

/-- The per-database loop: advisory pre-maintenance (warnings only), the
dump and compression (an error and a skip on failure), the upload (ledger
bookkeeping inside uploadToAzure), and advisory post-maintenance after a
successful upload only. -/
def perDbLoop (env : RunEnv) :
    List String → RunState → Ledger → List Step × RunState × Ledger
  | [], st, l => ([], st, l)
  | db :: rest, st, l =>
    let st1 := addWarns st (env.preMaintWarns db)
    match env.backupResult db with
    | none =>
      let r := perDbLoop env rest (addErr st1 msgBackupFailed) l
      (Step.backupDb db :: r.1, r.2)
    | some file =>
      match uploadToAzure env.now (env.uploadOut file) file false st1 l with
      | (true, st2, l2) =>
        let r := perDbLoop env rest (addWarns st2 (env.postMaintWarns db)) l2
        (Step.backupDb db :: r.1, r.2)
      | (false, st2, l2) =>
        let r := perDbLoop env rest st2 l2
        (Step.backupDb db :: r.1, r.2)

/-- run_backup_procedure: lock, hard preflight gate, health checks, retry
pass, enumeration, per-database loop, the two retention sweeps, the
conditional final notification and the lock release.  The three early
exits reproduce the source: a failed lock acquisition returns before the
try block (no notification, nothing to release); a failed preflight and
an empty enumeration notify and release. -/
def runBackupProcedure (env : RunEnv) (l0 : Ledger) :
    List Step × RunState × Ledger :=
  let acq := acquireLockR env.primaryLock env.fallbackLock
  if acq.ok = false then ([Step.acquireAttempt], ⟨acq.errs, []⟩, l0)
  else
    match checkDiskSpace env.diskFree MIN_DISK_SPACE_MB false
        ⟨acq.errs, []⟩ with
    | (false, st1) =>
      ([Step.acquireAttempt, Step.preflight, Step.notifyFinal,
        Step.releaseLock], addErr st1 msgInsufficientAbort, l0)
    | (true, st1) =>
      let st2 := addWarns st1 env.healthIssues
      match retryFailedUploads env.now env.fileExists env.uploadOut st2 l0
          with
      | (_, _, st3, l1) =>
        if env.databases = [] then
          ([Step.acquireAttempt, Step.preflight, Step.healthCheck,
            Step.retryPass, Step.enumerate, Step.notifyFinal,
            Step.releaseLock], addErr st3 msgNoDatabases, l1)
        else
          match perDbLoop env env.databases st3 l1 with
          | (dbSteps, st4, l2) =>
            let r := cleanupLocalBackups env.nowLocal env.localFiles l2
            if st4.errors ≠ [] ∨
                (st4.warnings ≠ [] ∧ env.notifyOnWarnings = true) then
              ([Step.acquireAttempt, Step.preflight, Step.healthCheck,
                Step.retryPass, Step.enumerate] ++ dbSteps ++
                [Step.cleanupAzure, Step.cleanupLocal] ++
                [Step.notifyFinal, Step.releaseLock], st4, r.2)
            else
              ([Step.acquireAttempt, Step.preflight, Step.healthCheck,
                Step.retryPass, Step.enumerate] ++ dbSteps ++
                [Step.cleanupAzure, Step.cleanupLocal] ++
                [Step.releaseLock], st4, r.2)

theorem perDbLoop_length (env : RunEnv) (dbs : List String) :
    ∀ (st : RunState) (l : Ledger),
      (perDbLoop env dbs st l).1.length = dbs.length := by
  induction dbs with
  | nil => intro st l; rfl
  | cons db rest ih =>
    intro st l
    unfold perDbLoop
    cases hbr : env.backupResult db with
    | none => simp only [hbr]; simp [ih]
    | some file =>
      simp only [hbr]
      rcases hup : uploadToAzure env.now (env.uploadOut file) file false
        (addWarns st (env.preMaintWarns db)) l with ⟨b, st2, l2⟩
      cases b <;> simp [ih]

def dbNamePostgres : String := "postgres"

/-- An environment in which the lock is held by another live process and
everything else would succeed. -/
def envLockBusy : RunEnv :=
  { primaryLock := PrimaryLockResult.contention
    fallbackLock := FallbackLockResult.ok
    diskFree := some 999999
    healthIssues := []
    fileExists := fun _ => true
    uploadOut := fun _ => UploadOutcome.success
    databases := [dbNamePostgres]
    preMaintWarns := fun _ => []
    backupResult := fun _ => none
    postMaintWarns := fun _ => []
    notifyOnWarnings := false
    now := 0
    nowLocal := 0
    localFiles := [] }

/-- Claim C3, counterexample: when lock acquisition fails, the run
returns immediately; the final notification step is not performed and no
release step runs, contradicting the claim that every early exit jumps to
notification-and-release. -/
theorem c3_lock_failure_no_notification :
    (runBackupProcedure envLockBusy []).1 = [Step.acquireAttempt]
    ∧ Step.notifyFinal ∉ (runBackupProcedure envLockBusy []).1
    ∧ Step.releaseLock ∉ (runBackupProcedure envLockBusy []).1 := by
  refine ⟨by decide, by decide, by decide⟩

/-- Claim C3 as amended: the preflight-failure and empty-enumeration
early exits jump directly to notification-and-release with all unreached
states skipped, and those traces characterise the two conditions; the
lock-acquisition early exit instead returns at once, performing neither
notification nor release (no lock is held).  The original claim also
promised notification-and-release for the lock-failure exit. -/
theorem c3_early_exit_paths (env : RunEnv) (l0 : Ledger) :
    ((acquireLockR env.primaryLock env.fallbackLock).ok = false ↔
      (runBackupProcedure env l0).1 = [Step.acquireAttempt])
    ∧ ((acquireLockR env.primaryLock env.fallbackLock).ok = true ∧
        (checkDiskSpace env.diskFree MIN_DISK_SPACE_MB false
          ⟨(acquireLockR env.primaryLock env.fallbackLock).errs, []⟩).1
          = false ↔
      (runBackupProcedure env l0).1 =
        [Step.acquireAttempt, Step.preflight, Step.notifyFinal,
          Step.releaseLock])
    ∧ ((acquireLockR env.primaryLock env.fallbackLock).ok = true ∧
        (checkDiskSpace env.diskFree MIN_DISK_SPACE_MB false
          ⟨(acquireLockR env.primaryLock env.fallbackLock).errs, []⟩).1
          = true ∧ env.databases = [] ↔
      (runBackupProcedure env l0).1 =
        [Step.acquireAttempt, Step.preflight, Step.healthCheck,
          Step.retryPass, Step.enumerate, Step.notifyFinal,
          Step.releaseLock]) := by
  rcases hpf : checkDiskSpace env.diskFree MIN_DISK_SPACE_MB false
    ⟨(acquireLockR env.primaryLock env.fallbackLock).errs, []⟩
    with ⟨pfOk, st1⟩
  cases hok : (acquireLockR env.primaryLock env.fallbackLock).ok with
  | false =>
    have hsteps : (runBackupProcedure env l0).1 = [Step.acquireAttempt] := by
      simp [runBackupProcedure, hok]
    refine ⟨by simp [hok, hsteps], ?_, ?_⟩
    · rw [hsteps]
      simp [hok]
    · rw [hsteps]
      simp [hok]
  | true =>
    cases pfOk with
    | false =>
      have hsteps : (runBackupProcedure env l0).1 =
          [Step.acquireAttempt, Step.preflight, Step.notifyFinal,
            Step.releaseLock] := by
        simp [runBackupProcedure, hok, hpf]
      refine ⟨?_, ?_, ?_⟩
      · rw [hsteps]; simp [hok]
      · rw [hsteps]; simp [hok, hpf]
      · rw [hsteps]; simp [hpf]
    | true =>
      rcases hrt : retryFailedUploads env.now env.fileExists env.uploadOut
        (addWarns st1 env.healthIssues) l0 with ⟨rs, rf, st3, l1⟩
      by_cases hdb : env.databases = []
      · have hsteps : (runBackupProcedure env l0).1 =
            [Step.acquireAttempt, Step.preflight, Step.healthCheck,
              Step.retryPass, Step.enumerate, Step.notifyFinal,
              Step.releaseLock] := by
          simp [runBackupProcedure, hok, hpf, hrt, hdb]
        refine ⟨?_, ?_, ?_⟩
        · rw [hsteps]; simp [hok]
        · rw [hsteps]; simp [hok, hpf]
        · rw [hsteps]; simp [hok, hpf, hdb]
      · rcases hpd : perDbLoop env env.databases st3 l1
          with ⟨dbSteps, st4, l2⟩
        have hlen : dbSteps.length = env.databases.length := by
          have h := perDbLoop_length env env.databases st3 l1
          rw [hpd] at h
          exact h
        have hpos : 0 < env.databases.length := List.length_pos.mpr hdb
        have hlensteps : 8 + env.databases.length ≤
            (runBackupProcedure env l0).1.length := by
          by_cases hnot : st4.errors ≠ [] ∨
              (st4.warnings ≠ [] ∧ env.notifyOnWarnings = true)
          · have hsteps : (runBackupProcedure env l0).1 =
                [Step.acquireAttempt, Step.preflight, Step.healthCheck,
                  Step.retryPass, Step.enumerate] ++ dbSteps ++
                  [Step.cleanupAzure, Step.cleanupLocal] ++
                  [Step.notifyFinal, Step.releaseLock] := by
              simp [runBackupProcedure, hok, hpf, hrt, hdb, hpd, hnot]
            rw [hsteps]
            simp [List.length_append, hlen]
            omega
          · have hsteps : (runBackupProcedure env l0).1 =
                [Step.acquireAttempt, Step.preflight, Step.healthCheck,
                  Step.retryPass, Step.enumerate] ++ dbSteps ++
                  [Step.cleanupAzure, Step.cleanupLocal] ++
                  [Step.releaseLock] := by
              simp [runBackupProcedure, hok, hpf, hrt, hdb, hpd, hnot]
            rw [hsteps]
            simp [List.length_append, hlen]
            omega
        have hne : ∀ target : List Step, target.length ≤ 7 →
            (runBackupProcedure env l0).1 ≠ target := by
          intro target htl heq
          rw [heq] at hlensteps
          omega
        refine ⟨?_, ?_, ?_⟩
        · refine iff_of_false (by simp [hok]) (hne _ (by simp))
        · refine iff_of_false (by simp [hok, hpf]) (hne _ (by simp))
        · refine iff_of_false (by simp [hdb]) (hne _ (by simp))

end PgBackup
